import Mathlib

/-!
Verification of the diffusion-id repository against its specification.

The development shallowly embeds the three Python source files:
* `border-addition/add_border.py` — subject bounding box and bounding-box
  border drawing over RGBA pixel grids;
* `ai-pipeline/batch_processor.py` — per-item retry with exponential
  backoff, batch aggregation with progress callbacks, and cost estimation;
* `ai-pipeline/comfyui_api.py` — completion polling with a timeout.

Images are rows of RGBA pixels (`List (List RGBA)`); machine floats of the
cost estimator are modelled by exact rationals; Python exceptions are
modelled by `Except`.
-/

namespace DiffusionId

/-- An RGBA pixel; each channel is a byte value (0..255 in practice,
modelled as `Nat`). -/
structure RGBA where
  r : Nat
  g : Nat
  b : Nat
  a : Nat
deriving DecidableEq, Repr

/-- The fully transparent black pixel, used as the out-of-bounds default. -/
def transparent : RGBA := ⟨0, 0, 0, 0⟩

/-- An RGB border color (from `hex_to_rgb`). -/
structure RGB where
  r : Nat
  g : Nat
  b : Nat
deriving DecidableEq, Repr

/-- An image is a list of rows, each row a list of RGBA pixels
(row-major, as `np.array(img)` indexes `data[row, col]`). -/
abbrev Img := List (List RGBA)

/-- Image height (`img.height` in PIL): the number of rows. -/
def imgHeight (img : Img) : Nat := img.length

/-- Image width (`img.width` in PIL): the length of a row (rows are
uniform; the rectangularity hypothesis appears in the theorems). -/
def imgWidth (img : Img) : Nat := (img.getD 0 []).length

/-- Rectangularity: every row has length `imgWidth img`; `np.array`
requires this of any RGBA image. -/
abbrev Rectangular (img : Img) : Prop := ∀ row ∈ img, row.length = imgWidth img

/-- The subject mask value at `(row y, col x)`: alpha of that pixel is
positive; out-of-bounds positions count as transparent. -/
def alphaPos (img : Img) (y x : Nat) : Bool :=
  0 < ((img.getD y []).getD x transparent).a

/-- Row occupancy, `rows = np.any(non_transparent, axis=1)` at row `y`: some pixel of the
row has alpha > 0. -/
def rowHasSubject (img : Img) (y : Nat) : Bool :=
  (img.getD y []).any (fun p => 0 < p.a)

/-- Column occupancy, `cols = np.any(non_transparent, axis=0)` at column `x`: some row has a
pixel with alpha > 0 in column `x`. -/
def colHasSubject (img : Img) (x : Nat) : Bool :=
  img.any (fun row => 0 < (row.getD x transparent).a)

/-- Embedding of `get_subject_bbox`: the row/column indices carrying the subject, in
increasing order (as `np.where` returns them); `None` when there are none,
otherwise `(left, top, right, bottom)` from the first/last such column/row. -/
def get_subject_bbox (img : Img) : Option (Nat × Nat × Nat × Nat) :=
  let rowIdx := (List.range (imgHeight img)).filter (rowHasSubject img)
  let colIdx := (List.range (imgWidth img)).filter (colHasSubject img)
  match rowIdx, colIdx with
  | [], _ => none
  | _, [] => none
  | t :: rs, l :: cs => some (l, t, (l :: cs).getLastD l, (t :: rs).getLastD t)

/-- Whether `(x, y)` lies on the 1-pixel-wide outline of the rectangle
`[x0, x1] × [y0, y1]` (both corners inclusive, as PIL's
`draw.rectangle(..., outline=..., width=1)` paints it). -/
def onOutline (x0 y0 x1 y1 x y : Int) : Bool :=
  x0 ≤ x && x ≤ x1 && y0 ≤ y && y ≤ y1 &&
    (x = x0 || x = x1 || y = y0 || y = y1)

/-- Embedding of `draw.rectangle([x0, y0, x1, y1], outline=color+(255,), width=1)`:
paint every pixel on the outline with the border color at alpha 255,
leaving all other pixels unchanged. -/
def drawRectOutline (img : Img) (x0 y0 x1 y1 : Int) (c : RGB) : Img :=
  img.mapIdx fun y row => row.mapIdx fun x p =>
    if onOutline x0 y0 x1 y1 (x : Int) (y : Int) then ⟨c.r, c.g, c.b, 255⟩ else p

/-- The clamped coordinates of ring `i` around bbox `(l, t, r, b)`:
`x0 = max(0, left-i)`, `y0 = max(0, top-i)`, `x1 = min(width-1, right+i)`,
`y1 = min(height-1, bottom+i)` (lines 104–113 of `add_border.py`). -/
def ringRect (img : Img) (l t r b : Nat) (i : Nat) : Int × Int × Int × Int :=
  (max 0 ((l : Int) - i), max 0 ((t : Int) - i),
   min ((imgWidth img : Int) - 1) ((r : Int) + i),
   min ((imgHeight img : Int) - 1) ((b : Int) + i))

/-- Embedding of `add_border_to_subject` (pure core): if the bbox is `None`, the image
is saved unchanged and the call still succeeds; otherwise rings
`i = 0 .. border_width - 1` are drawn, each clamped to image bounds.
Returns the output image and the success flag. -/
def add_border_to_subject (img : Img) (border_color : RGB) (border_width : Nat) :
    Img × Bool :=
  match get_subject_bbox img with
  | none => (img, true)
  | some (l, t, r, b) =>
      let result := (List.range border_width).foldl (fun acc i =>
        let (x0, y0, x1, y1) := ringRect img l t r b i
        drawRectOutline acc x0 y0 x1 y1 border_color) img
      (result, true)

/-- A boolean mask over the image grid (the SubjectMask of the spec). -/
abbrev Mask := List (List Bool)

/-- The SubjectMask: true exactly where alpha > 0. -/
def subjectMask (img : Img) : Mask :=
  img.map (List.map (fun p => decide (0 < p.a)))

/-- Mask lookup at signed coordinates; outside the grid the mask is false. -/
def maskCell (m : Mask) (y x : Int) : Bool :=
  if 0 ≤ y ∧ 0 ≤ x then (m.getD y.toNat []).getD x.toNat false else false

/-- Modelled from the spec: one binary dilation step with the 8-connected
(3×3 all-true) structuring element — a cell becomes true when any cell of
its 3×3 neighbourhood is true (spec §4.4; the silhouette-border script is
not present under `src/`, only the bounding-box script is). -/
def dilateOnce (m : Mask) : Mask :=
  m.mapIdx fun y row => row.mapIdx fun x _ =>
    [(-1 : Int), 0, 1].any fun dy => [(-1 : Int), 0, 1].any fun dx =>
      maskCell m ((y : Int) + dy) ((x : Int) + dx)

/-- Modelled from the spec: `width` successive dilation steps (spec §4.4). -/
def dilate (m : Mask) : Nat → Mask
  | 0 => m
  | n + 1 => dilateOnce (dilate m n)

/-- Modelled from the spec: the silhouette border strategy (spec §4.4,
missing from `src/`). Compute the SubjectMask; if empty, pass the image
through unchanged and succeed; otherwise paint the cells of
`dilate^width(mask) AND NOT mask` with the border color at full opacity
and leave every other pixel unchanged. -/
def silhouette_border (img : Img) (border_color : RGB) (border_width : Nat) :
    Img × Bool :=
  let m := subjectMask img
  if m.all (fun row => row.all (fun c => !c)) then (img, true)
  else
    let d := dilate m border_width
    (img.mapIdx fun y row => row.mapIdx fun x p =>
      if maskCell d (y : Int) (x : Int) && !maskCell m (y : Int) (x : Int)
      then ⟨border_color.r, border_color.g, border_color.b, 255⟩ else p, true)

/-- Whether a Python call modelled as `Except` returned normally. -/
def exceptOk {ε α : Type} : Except ε α → Bool
  | .ok _ => true
  | .error _ => false

/-- The retry loop of `process_single` (lines 46–61 of
`batch_processor.py`): `gen attempt` models the
`self.api.generate_face_swap(...)` call on that zero-based attempt.
`runAttempts src outp gen k attempt` runs attempts
`attempt, attempt+1, ...` with `k` attempts remaining; it returns the
`(success, source, output-or-error)` triple, the list of back-off sleep
durations performed (in seconds, in order), and the number of attempts
made.  On an exception, `attempt == retry_attempts - 1` (i.e. none
remaining after this one) returns the failure with that error's text;
otherwise the loop sleeps `2 ** attempt` seconds and retries. -/
def runAttempts (src outp : String) (gen : Nat → Except String Unit) :
    Nat → Nat → (Bool × String × String) × List Nat × Nat
  | 0, _ => ((false, src, "Max retries exceeded"), [], 0)
  | k + 1, attempt =>
    match gen attempt with
    | .ok _ => ((true, src, outp), [], 1)
    | .error e =>
      if k = 0 then ((false, src, e), [], 1)
      else
        let (res, sleeps, n) := runAttempts src outp gen k (attempt + 1)
        (res, 2 ^ attempt :: sleeps, n + 1)

/-- Embedding of `process_single(source_face, target_body, output_path, ...)` with
`retry_attempts` retries: run the attempt loop from attempt 0.  Besides
the returned triple it exposes the back-off sleeps and attempt count for
the backoff claims. -/
def process_single (retry_attempts : Nat) (source_face output_path : String)
    (gen : Nat → Except String Unit) : (Bool × String × String) × List Nat × Nat :=
  runAttempts source_face output_path gen retry_attempts 0

/-- The aggregate report of `process_batch`: the `successful` and `failed`
lists hold `(source, output)` resp. `(source, error)` pairs in completion
order; `total_time` is the wall-clock elapsed duration. -/
structure BatchReport where
  successful : List (String × String)
  failed : List (String × String)
  total_time : ℚ
deriving DecidableEq, Repr

/-- One iteration of the `as_completed` loop (lines 109–124 of
`batch_processor.py`): increment `completed`, append the result to the
matching list, then invoke the progress callback with
`(completed, total, len(successful), len(failed))` (recorded in the call
trace). State is `(successful, failed, completed, calls)`. -/
def batchStep (total : Nat)
    (st : List (String × String) × List (String × String) × Nat ×
      List (Nat × Nat × Nat × Nat))
    (o : Bool × String × String) :
    List (String × String) × List (String × String) × Nat ×
      List (Nat × Nat × Nat × Nat) :=
  let (succ, fail, completed, calls) := st
  let completed := completed + 1
  let succ := if o.1 then succ ++ [(o.2.1, o.2.2)] else succ
  let fail := if o.1 then fail else fail ++ [(o.2.1, o.2.2)]
  (succ, fail, completed, calls ++ [(completed, total, succ.length, fail.length)])

/-- Embedding of `process_batch`: the thread pool completes the per-source
`process_single` results in a nondeterministic order; `outcomes` is that
completion-ordered list of result triples.  The loop folds `batchStep`
over it from the empty report; `total_time` is the difference of the two
wall-clock readings.  Returns the report and the progress-callback trace. -/
def process_batch (startTime endTime : ℚ) (outcomes : List (Bool × String × String)) :
    BatchReport × List (Nat × Nat × Nat × Nat) :=
  let (succ, fail, _, calls) :=
    outcomes.foldl (batchStep outcomes.length) ([], [], 0, [])
  (⟨succ, fail, endTime - startTime⟩, calls)

/-- The cost-breakdown dict returned by `estimate_cost`. -/
structure CostBreakdown where
  num_images : Nat
  gpu_type : String
  estimated_hours : ℚ
  hourly_rate : ℚ
  total_cost : ℚ
  cost_per_image : ℚ
  avg_time_per_image : ℚ
deriving DecidableEq, Repr

/-- The RunPod price table of `estimate_cost` (dollars per hour). -/
def gpu_prices : List (String × ℚ) :=
  [("RTX 4090", 69/100), ("RTX 3090", 44/100), ("A40", 79/100),
   ("A100 40GB", 189/100), ("A100 80GB", 249/100)]

/-- Rate lookup `gpu_prices.get(gpu_type, 0.69)`: table lookup with the
default rate for unknown GPU names. -/
def lookupRate (gpu_type : String) : ℚ :=
  ((gpu_prices.lookup gpu_type).getD (69/100))

/-- Python's `round(q, n)`: round to `n` decimal places (floats modelled
by exact rationals; no tie arises at the values the spec fixes). -/
def roundTo (q : ℚ) (n : Nat) : ℚ := ((round (q * 10 ^ n) : ℤ) : ℚ) / 10 ^ n

/-- Python division, which raises `ZeroDivisionError` on a zero divisor. -/
def pydiv (a b : ℚ) : Except String ℚ :=
  if b = 0 then .error "ZeroDivisionError: float division by zero"
  else .ok (a / b)

/-- Embedding of `estimate_cost(num_images, gpu_type, avg_time_per_image)` (lines
146–169 of `batch_processor.py`): look up the hourly rate (default 0.69),
`total_hours = num_images * avg_time_per_image / 3600`,
`total_cost = total_hours * hourly_rate`,
`cost_per_image = total_cost / num_images` (unguarded division), then
round hours and cost to 2 places and cost per image to 4. -/
def estimate_cost (num_images : Nat) (gpu_type : String)
    (avg_time_per_image : ℚ) : Except String CostBreakdown := do
  let hourly_rate := lookupRate gpu_type
  let total_seconds := (num_images : ℚ) * avg_time_per_image
  let total_hours ← pydiv total_seconds 3600
  let total_cost := total_hours * hourly_rate
  let cost_per_image ← pydiv total_cost (num_images : ℚ)
  pure ⟨num_images, gpu_type, roundTo total_hours 2, hourly_rate,
    roundTo total_cost 2, roundTo cost_per_image 4, avg_time_per_image⟩

/-- The polling loop of `wait_for_completion` (lines 92–98 of
`comfyui_api.py`), in discrete time: each iteration takes one second
(`time.sleep(1)`; the HTTP call is instantaneous in the model), so
iteration `k` runs at elapsed time `k` seconds and the `while` guard
`time.time() - start_time < timeout` admits exactly `k < timeout`.
`hist k` models `get_history(prompt_id)` restricted to the prompt id at
poll `k`: `some h` when the id is in the listing with entry `h`. -/
def waitLoop {H : Type} (hist : Nat → Option H) (timeout : Nat) :
    Nat → Nat → Except String H
  | _, 0 =>
    .error ("TimeoutError: Workflow did not complete within " ++
      toString timeout ++ " seconds")
  | k, fuel + 1 =>
    match hist k with
    | some h => .ok h
    | none => waitLoop hist timeout (k + 1) fuel

/-- Model of `wait_for_completion(prompt_id, timeout)`: poll once per
second from elapsed time 0; return the history entry as soon as the id
appears, raise `TimeoutError` when `timeout` seconds elapse without it
appearing. -/
def wait_for_completion {H : Type} (hist : Nat → Option H) (timeout : Nat) :
    Except String H :=
  waitLoop hist timeout 0 timeout


/-! ### List and grid helper lemmas -/

theorem getD_mapIdx {α β : Type} (l : List α) (f : Nat → α → β) (i : Nat)
    (d : β) (da : α) (hi : i < l.length) :
    (l.mapIdx f).getD i d = f i (l.getD i da) := by
  have h' : i < (l.mapIdx f).length := by
    simp [List.length_mapIdx, hi]
  rw [List.getD_eq_getElem _ _ h', List.getD_eq_getElem _ _ hi]
  simpa using List.get_mapIdx l f i hi

theorem getD_mapIdx_oob {α β : Type} (l : List α) (f : Nat → α → β) (i : Nat)
    (d : β) (hi : l.length ≤ i) :
    (l.mapIdx f).getD i d = d := by
  apply List.getD_eq_default
  rw [List.length_mapIdx]
  exact hi

theorem getLastD_cons_mem : ∀ (l : List Nat) (a : Nat),
    (a :: l).getLastD a ∈ a :: l := by
  intro l
  induction l with
  | nil => intro a; simp [List.getLastD]
  | cons b l ih =>
    intro a
    rw [List.getLastD_cons]
    exact List.mem_cons_of_mem a (ih b)

theorem le_getLastD_of_pairwise :
    ∀ (l : List Nat) (a : Nat), List.Pairwise (· < ·) (a :: l) →
      ∀ x ∈ a :: l, x ≤ (a :: l).getLastD a := by
  intro l
  induction l with
  | nil =>
    intro a _ x hx
    simp at hx
    simp [hx, List.getLastD]
  | cons b l ih =>
    intro a hpw x hx
    rw [List.getLastD_cons]
    rcases List.mem_cons.mp hx with rfl | hx'
    · have hab : x < b := List.rel_of_pairwise_cons hpw (List.mem_cons_self b l)
      have hb := ih b hpw.of_cons b (List.mem_cons_self b l)
      rw [List.getLastD_cons] at hb ⊢
      omega
    · have hxle := ih b hpw.of_cons x hx'
      rw [List.getLastD_cons] at hxle ⊢
      exact hxle

theorem filter_range_head (n : Nat) (p : Nat → Bool) (a : Nat) (l' : List Nat)
    (h : (List.range n).filter p = a :: l') :
    p a = true ∧ a < n ∧ ∀ i, i < a → p i = false := by
  have hmem : a ∈ (List.range n).filter p := by
    rw [h]
    exact List.mem_cons_self a l'
  rw [List.mem_filter, List.mem_range] at hmem
  refine ⟨hmem.2, hmem.1, ?_⟩
  intro i hi
  by_contra hpi
  have hpi' : p i = true := by
    cases hp : p i
    · exact absurd hp hpi
    · rfl
  have himem : i ∈ a :: l' := by
    rw [← h, List.mem_filter, List.mem_range]
    exact ⟨lt_trans hi hmem.1, hpi'⟩
  have hpw : List.Pairwise (· < ·) (a :: l') := by
    rw [← h]
    exact (List.pairwise_lt_range n).sublist (List.filter_sublist _)
  rcases List.mem_cons.mp himem with rfl | hmem'
  · omega
  · have := List.rel_of_pairwise_cons hpw hmem'
    omega

theorem filter_range_getLastD (n : Nat) (p : Nat → Bool) (a : Nat) (l' : List Nat)
    (h : (List.range n).filter p = a :: l') :
    p ((a :: l').getLastD a) = true ∧ (a :: l').getLastD a < n ∧
      ∀ i, (a :: l').getLastD a < i → i < n → p i = false := by
  have hmem : (a :: l').getLastD a ∈ (List.range n).filter p := by
    rw [h]
    exact getLastD_cons_mem l' a
  rw [List.mem_filter, List.mem_range] at hmem
  refine ⟨hmem.2, hmem.1, ?_⟩
  intro i hgt hin
  by_contra hpi
  have hpi' : p i = true := by
    cases hp : p i
    · exact absurd hp hpi
    · rfl
  have himem : i ∈ a :: l' := by
    rw [← h, List.mem_filter, List.mem_range]
    exact ⟨hin, hpi'⟩
  have hpw : List.Pairwise (· < ·) (a :: l') := by
    rw [← h]
    exact (List.pairwise_lt_range n).sublist (List.filter_sublist _)
  have := le_getLastD_of_pairwise l' a hpw i himem
  omega

theorem all_not_eq_not_any {α : Type} (l : List α) (p : α → Bool) :
    l.all (fun x => !p x) = !(l.any p) := by
  induction l with
  | nil => simp
  | cons x xs ih => simp [ih]

/-! ### Border-tool helper lemmas -/

theorem rowHasSubject_iff (img : Img) (y : Nat) :
    rowHasSubject img y = true ↔ ∃ x, alphaPos img y x = true := by
  rw [rowHasSubject, List.any_eq_true]
  constructor
  · rintro ⟨p, hp, hpa⟩
    obtain ⟨i, hi, hie⟩ := List.mem_iff_getElem.mp hp
    refine ⟨i, ?_⟩
    rw [alphaPos, List.getD_eq_getElem _ _ hi, hie]
    exact hpa
  · rintro ⟨x, hx⟩
    rw [alphaPos] at hx
    by_cases hxl : x < (img.getD y []).length
    · refine ⟨(img.getD y []).getD x transparent, ?_, hx⟩
      rw [List.getD_eq_getElem _ _ hxl]
      exact List.getElem_mem hxl
    · rw [List.getD_eq_default _ _ (by omega)] at hx
      simp [transparent] at hx

theorem colHasSubject_iff (img : Img) (x : Nat) :
    colHasSubject img x = true ↔ ∃ y, alphaPos img y x = true := by
  rw [colHasSubject, List.any_eq_true]
  constructor
  · rintro ⟨row, hrow, hx⟩
    obtain ⟨i, hi, hie⟩ := List.mem_iff_getElem.mp hrow
    refine ⟨i, ?_⟩
    rw [alphaPos, List.getD_eq_getElem _ _ hi, hie]
    exact hx
  · rintro ⟨y, hy⟩
    rw [alphaPos] at hy
    by_cases hyl : y < img.length
    · refine ⟨img.getD y [], ?_, hy⟩
      rw [List.getD_eq_getElem _ _ hyl]
      exact List.getElem_mem hyl
    · rw [show img.getD y ([] : List RGBA) = [] from
        List.getD_eq_default _ _ (by omega)] at hy
      simp [transparent] at hy

theorem rowHasSubject_lt (img : Img) (y : Nat) (h : rowHasSubject img y = true) :
    y < imgHeight img := by
  by_contra hy
  rw [rowHasSubject, List.getD_eq_default _ _ (by
    rw [imgHeight] at hy; omega)] at h
  simp at h

theorem colHasSubject_lt (img : Img) (hrect : Rectangular img) (x : Nat)
    (h : colHasSubject img x = true) : x < imgWidth img := by
  rw [colHasSubject, List.any_eq_true] at h
  obtain ⟨row, hrow, hx⟩ := h
  by_contra hxw
  have hlen : row.length = imgWidth img := hrect row hrow
  rw [List.getD_eq_default _ _ (by omega)] at hx
  simp [transparent] at hx

theorem rowHasSubject_false_of_empty (img : Img)
    (hempty : ∀ row ∈ img, ∀ p ∈ row, p.a = 0) (y : Nat) :
    rowHasSubject img y = false := by
  rw [rowHasSubject]
  by_cases hy : y < img.length
  · rw [List.getD_eq_getElem _ _ hy]
    rw [List.any_eq_false]
    intro p hp
    have := hempty _ (List.getElem_mem hy) p hp
    simp [this]
  · rw [List.getD_eq_default _ _ (by omega)]
    simp

theorem bbox_none_of_empty (img : Img)
    (hempty : ∀ row ∈ img, ∀ p ∈ row, p.a = 0) :
    get_subject_bbox img = none := by
  have hfilter : (List.range (imgHeight img)).filter (rowHasSubject img) = [] := by
    rw [List.filter_eq_nil_iff]
    intro a _
    simp [rowHasSubject_false_of_empty img hempty a]
  simp [get_subject_bbox, hfilter]

theorem drawRectOutline_length (img : Img) (x0 y0 x1 y1 : Int) (c : RGB) :
    (drawRectOutline img x0 y0 x1 y1 c).length = img.length := by
  rw [drawRectOutline, List.length_mapIdx]

theorem drawRectOutline_row_length (img : Img) (x0 y0 x1 y1 : Int) (c : RGB)
    (y : Nat) :
    ((drawRectOutline img x0 y0 x1 y1 c).getD y []).length =
      (img.getD y []).length := by
  by_cases hy : y < img.length
  · rw [drawRectOutline, getD_mapIdx img _ y [] [] hy, List.length_mapIdx]
  · rw [drawRectOutline, getD_mapIdx_oob img _ y [] (by omega),
      List.getD_eq_default _ _ (by omega)]

theorem foldl_draw_shape (f : Nat → Int × Int × Int × Int) (c : RGB) :
    ∀ (L : List Nat) (acc : Img),
      ((L.foldl (fun a i =>
        drawRectOutline a (f i).1 (f i).2.1 (f i).2.2.1 (f i).2.2.2 c) acc).length =
          acc.length) ∧
      (∀ y, (((L.foldl (fun a i =>
        drawRectOutline a (f i).1 (f i).2.1 (f i).2.2.1 (f i).2.2.2 c) acc)).getD y
          []).length = (acc.getD y []).length) := by
  intro L
  induction L with
  | nil => intro acc; exact ⟨rfl, fun _ => rfl⟩
  | cons i L ih =>
    intro acc
    rw [List.foldl_cons]
    refine ⟨?_, ?_⟩
    · rw [(ih _).1, drawRectOutline_length]
    · intro y
      rw [(ih _).2 y, drawRectOutline_row_length]


/-! ### Retry-loop helper lemmas -/

theorem exceptOk_false {ε α : Type} {x : Except ε α} (h : exceptOk x = false) :
    ∃ e, x = .error e := by
  cases x with
  | ok v => simp [exceptOk] at h
  | error e => exact ⟨e, rfl⟩

theorem runAttempts_ok (src outp : String) (gen : Nat → Except String Unit) :
    ∀ j k a, j < k → (∀ i, i < j → exceptOk (gen (a + i)) = false) →
      gen (a + j) = .ok () →
      runAttempts src outp gen k a =
        ((true, src, outp), (List.range' a j).map (fun i => 2 ^ i), j + 1) := by
  intro j
  induction j with
  | zero =>
    intro k a hk _ hok
    match k, hk with
    | k + 1, _ =>
      simp only [Nat.add_zero] at hok
      simp [runAttempts, hok]
  | succ j ih =>
    intro k a hk herr hok
    match k, hk with
    | k + 1, hk =>
      obtain ⟨e, he⟩ := exceptOk_false (herr 0 (Nat.succ_pos j))
      rw [Nat.add_zero] at he
      have hkne : k ≠ 0 := by omega
      have hrec := ih k (a + 1) (by omega)
        (fun i hi => by
          have := herr (i + 1) (by omega)
          rwa [show a + (i + 1) = a + 1 + i by omega] at this)
        (by rwa [show a + 1 + j = a + (j + 1) by omega])
      simp [runAttempts, he, hkne, hrec, List.range'_succ]

theorem runAttempts_err (src outp : String) (gen : Nat → Except String Unit) :
    ∀ k a, 1 ≤ k → (∀ i, i < k → exceptOk (gen (a + i)) = false) →
      ∀ e, gen (a + (k - 1)) = .error e →
      runAttempts src outp gen k a =
        ((false, src, e), (List.range' a (k - 1)).map (fun i => 2 ^ i), k) := by
  intro k
  induction k with
  | zero => intro a h; omega
  | succ k ih =>
    intro a _ herr e he
    by_cases hk : k = 0
    · subst hk
      norm_num at he ⊢
      simp [runAttempts, he]
    · obtain ⟨e0, he0⟩ := exceptOk_false (herr 0 (by omega))
      rw [Nat.add_zero] at he0
      have hrec := ih (a + 1) (by omega)
        (fun i hi => by
          have := herr (i + 1) (by omega)
          rwa [show a + (i + 1) = a + 1 + i by omega] at this)
        e (by rwa [show a + 1 + (k - 1) = a + (k + 1 - 1) by omega])
      have hk1 : k = (k - 1) + 1 := by omega
      simp only [runAttempts, he0, hk, if_false, hrec]
      rw [Nat.succ_sub_one, hk1, List.range'_succ]
      simp

theorem runAttempts_le (src outp : String) (gen : Nat → Except String Unit) :
    ∀ k a, (runAttempts src outp gen k a).2.2 ≤ k := by
  intro k
  induction k with
  | zero => intro a; simp [runAttempts]
  | succ k ih =>
    intro a
    cases hgen : gen a with
    | ok v => simp [runAttempts, hgen]
    | error e =>
      by_cases hk : k = 0
      · subst hk; simp [runAttempts, hgen]
      · rcases hr : runAttempts src outp gen k (a + 1) with ⟨res, sleeps, n⟩
        have := ih (a + 1)
        rw [hr] at this
        simp only [runAttempts, hgen, hk, if_false, hr]
        simpa using this

theorem runAttempts_success (src outp : String) (gen : Nat → Except String Unit) :
    ∀ k a, (runAttempts src outp gen k a).1.1 =
      (List.range' a k).any (fun i => exceptOk (gen i)) := by
  intro k
  induction k with
  | zero => intro a; simp [runAttempts]
  | succ k ih =>
    intro a
    cases hgen : gen a with
    | ok v => simp [runAttempts, hgen, List.range'_succ, exceptOk]
    | error e =>
      by_cases hk : k = 0
      · subst hk; simp [runAttempts, hgen, List.range'_succ, exceptOk]
      · rcases hr : runAttempts src outp gen k (a + 1) with ⟨res, sleeps, n⟩
        have := ih (a + 1)
        rw [hr] at this
        simp only [runAttempts, hgen, hk, if_false, hr, List.range'_succ,
          List.any_cons]
        simp only at this
        simp [this, hgen, exceptOk]

theorem runAttempts_source (src outp : String) (gen : Nat → Except String Unit) :
    ∀ k a, (runAttempts src outp gen k a).1.2.1 = src := by
  intro k
  induction k with
  | zero => intro a; simp [runAttempts]
  | succ k ih =>
    intro a
    cases hgen : gen a with
    | ok v => simp [runAttempts, hgen]
    | error e =>
      by_cases hk : k = 0
      · subst hk; simp [runAttempts, hgen]
      · rcases hr : runAttempts src outp gen k (a + 1) with ⟨res, sleeps, n⟩
        have := ih (a + 1)
        rw [hr] at this
        simp only [runAttempts, hgen, hk, if_false, hr]
        simpa using this

/-! ### Batch-fold helper lemmas -/

theorem foldl_batchStep_succ (T : Nat) :
    ∀ (outcomes : List (Bool × String × String)) s0 f0 c0 k0,
      (outcomes.foldl (batchStep T) (s0, f0, c0, k0)).1 =
        s0 ++ (outcomes.filter (·.1)).map (fun o => (o.2.1, o.2.2)) := by
  intro outcomes
  induction outcomes with
  | nil => intro s0 f0 c0 k0; simp
  | cons o os ih =>
    intro s0 f0 c0 k0
    rw [List.foldl_cons, batchStep]
    cases ho : o.1 <;> simp [ho, ih, List.filter_cons]

theorem foldl_batchStep_fail (T : Nat) :
    ∀ (outcomes : List (Bool × String × String)) s0 f0 c0 k0,
      (outcomes.foldl (batchStep T) (s0, f0, c0, k0)).2.1 =
        f0 ++ (outcomes.filter (fun o => !o.1)).map (fun o => (o.2.1, o.2.2)) := by
  intro outcomes
  induction outcomes with
  | nil => intro s0 f0 c0 k0; simp
  | cons o os ih =>
    intro s0 f0 c0 k0
    rw [List.foldl_cons, batchStep]
    cases ho : o.1 <;> simp [ho, ih, List.filter_cons]

theorem foldl_batchStep_calls (T : Nat) :
    ∀ (outcomes : List (Bool × String × String)) s0 f0 c0 k0,
      ((outcomes.foldl (batchStep T) (s0, f0, c0, k0)).2.2.2).map (·.1) =
        k0.map (·.1) ++ List.range' (c0 + 1) outcomes.length := by
  intro outcomes
  induction outcomes with
  | nil => intro s0 f0 c0 k0; simp
  | cons o os ih =>
    intro s0 f0 c0 k0
    rw [List.foldl_cons, batchStep]
    cases ho : o.1 <;>
      simp [ho, ih, List.range'_succ, List.map_append]

/-! ### Cost-estimator and polling helper lemmas -/

theorem estimate_cost_pos_eval (n : Nat) (g : String) (a : ℚ) (hne : (n : ℚ) ≠ 0) :
    estimate_cost n g a =
      .ok ⟨n, g, roundTo ((n : ℚ) * a / 3600) 2, lookupRate g,
        roundTo ((n : ℚ) * a / 3600 * lookupRate g) 2,
        roundTo ((n : ℚ) * a / 3600 * lookupRate g / (n : ℚ)) 4, a⟩ := by
  have h36 : (3600 : ℚ) ≠ 0 := by norm_num
  simp [estimate_cost, pydiv, hne, h36, Bind.bind, Except.bind, Pure.pure,
    Except.pure]

theorem waitLoop_found {H : Type} (hist : Nat → Option H) (timeout : Nat) :
    ∀ fuel k j, j < fuel → (∀ i, i < j → hist (k + i) = none) →
      ∀ h, hist (k + j) = some h → waitLoop hist timeout k fuel = .ok h := by
  intro fuel
  induction fuel with
  | zero => intro k j hj; omega
  | succ fuel ih =>
    intro k j hj hbefore h hfound
    cases j with
    | zero =>
      rw [Nat.add_zero] at hfound
      simp [waitLoop, hfound]
    | succ j =>
      have h0 : hist k = none := by
        have := hbefore 0 (Nat.succ_pos j)
        rwa [Nat.add_zero] at this
      rw [waitLoop, h0]
      exact ih (k + 1) j (by omega)
        (fun i hi => by
          have := hbefore (i + 1) (by omega)
          rwa [show k + (i + 1) = k + 1 + i by omega] at this)
        h (by rwa [show k + 1 + j = k + (j + 1) by omega])

theorem waitLoop_error_iff {H : Type} (hist : Nat → Option H) (timeout : Nat) :
    ∀ fuel k,
      waitLoop hist timeout k fuel =
        .error ("TimeoutError: Workflow did not complete within " ++
          toString timeout ++ " seconds") ↔
      ∀ i, i < fuel → hist (k + i) = none := by
  intro fuel
  induction fuel with
  | zero => intro k; simp [waitLoop]
  | succ fuel ih =>
    intro k
    cases h0 : hist k with
    | some h =>
      rw [waitLoop, h0]
      constructor
      · intro hc; simp at hc
      · intro hall
        have h1 := hall 0 (Nat.succ_pos fuel)
        rw [Nat.add_zero, h0] at h1
        simp at h1
    | none =>
      rw [waitLoop, h0, ih (k + 1)]
      constructor
      · intro hall i hi
        cases i with
        | zero => rwa [Nat.add_zero]
        | succ i =>
          have := hall i (by omega)
          rwa [show k + 1 + i = k + (i + 1) by omega] at this
      · intro hall i hi
        have := hall (i + 1) (by omega)
        rwa [show k + (i + 1) = k + 1 + i by omega] at this


/-! ### Claim theorems: border tool -/

/-- C1: for every RGBA image containing at least one pixel with alpha > 0
(and rectangular rows, as `np.array` requires), `get_subject_bbox` returns
the minimal axis-aligned rectangle enclosing all pixels with alpha > 0:
every subject pixel lies within `[t, b] × [l, r]`, and each of the four
edges touches a subject pixel (so top/bottom are the first/last occupied
rows and left/right the first/last occupied columns). -/
theorem get_subject_bbox_minimal (img : Img) (hrect : Rectangular img)
    (y0 x0 : Nat) (hsubj : alphaPos img y0 x0 = true) :
    ∃ l t r b, get_subject_bbox img = some (l, t, r, b) ∧
      (∀ y x, alphaPos img y x = true → t ≤ y ∧ y ≤ b ∧ l ≤ x ∧ x ≤ r) ∧
      (∃ x, alphaPos img t x = true) ∧ (∃ x, alphaPos img b x = true) ∧
      (∃ y, alphaPos img y l = true) ∧ (∃ y, alphaPos img y r = true) := by
  have hrowy0 : rowHasSubject img y0 = true :=
    (rowHasSubject_iff img y0).mpr ⟨x0, hsubj⟩
  have hcolx0 : colHasSubject img x0 = true :=
    (colHasSubject_iff img x0).mpr ⟨y0, hsubj⟩
  have hy0 : y0 < imgHeight img := rowHasSubject_lt img y0 hrowy0
  have hx0 : x0 < imgWidth img := colHasSubject_lt img hrect x0 hcolx0
  have hy0mem : y0 ∈ (List.range (imgHeight img)).filter (rowHasSubject img) := by
    rw [List.mem_filter, List.mem_range]
    exact ⟨hy0, hrowy0⟩
  have hx0mem : x0 ∈ (List.range (imgWidth img)).filter (colHasSubject img) := by
    rw [List.mem_filter, List.mem_range]
    exact ⟨hx0, hcolx0⟩
  cases hR : (List.range (imgHeight img)).filter (rowHasSubject img) with
  | nil => rw [hR] at hy0mem; cases hy0mem
  | cons t rs =>
  cases hC : (List.range (imgWidth img)).filter (colHasSubject img) with
  | nil => rw [hC] at hx0mem; cases hx0mem
  | cons l cs =>
  obtain ⟨hpt, htn, htmin⟩ := filter_range_head _ _ _ _ hR
  obtain ⟨hpb, hbn, hbmax⟩ := filter_range_getLastD _ _ _ _ hR
  obtain ⟨hpl, hln, hlmin⟩ := filter_range_head _ _ _ _ hC
  obtain ⟨hpr, hrn, hrmax⟩ := filter_range_getLastD _ _ _ _ hC
  refine ⟨l, t, (l :: cs).getLastD l, (t :: rs).getLastD t, ?_, ?_, ?_, ?_, ?_, ?_⟩
  · rw [get_subject_bbox]
    simp only [hR, hC]
  · intro y x hyx
    have hrowy : rowHasSubject img y = true := (rowHasSubject_iff img y).mpr ⟨x, hyx⟩
    have hcolx : colHasSubject img x = true := (colHasSubject_iff img x).mpr ⟨y, hyx⟩
    have hylt : y < imgHeight img := rowHasSubject_lt img y hrowy
    have hxlt : x < imgWidth img := colHasSubject_lt img hrect x hcolx
    refine ⟨?_, ?_, ?_, ?_⟩
    · by_contra hlt
      have := htmin y (by omega)
      rw [hrowy] at this; cases this
    · by_contra hlt
      have := hbmax y (by omega) hylt
      rw [hrowy] at this; cases this
    · by_contra hlt
      have := hlmin x (by omega)
      rw [hcolx] at this; cases this
    · by_contra hlt
      have := hrmax x (by omega) hxlt
      rw [hcolx] at this; cases this
  · exact (rowHasSubject_iff img t).mp hpt
  · exact (rowHasSubject_iff img _).mp hpb
  · exact (colHasSubject_iff img l).mp hpl
  · exact (colHasSubject_iff img _).mp hpr

/-- Witness for C1 at a concrete 2×2 image with one opaque pixel. -/
theorem get_subject_bbox_minimal_witness :
    (Rectangular [[transparent, ⟨9, 9, 9, 255⟩], [transparent, transparent]] ∧
     alphaPos [[transparent, ⟨9, 9, 9, 255⟩], [transparent, transparent]] 0 1 =
       true) ∧
    (∃ l t r b,
      get_subject_bbox [[transparent, ⟨9, 9, 9, 255⟩],
        [transparent, transparent]] = some (l, t, r, b) ∧
      (∀ y x, alphaPos [[transparent, ⟨9, 9, 9, 255⟩],
        [transparent, transparent]] y x = true → t ≤ y ∧ y ≤ b ∧ l ≤ x ∧ x ≤ r) ∧
      (∃ x, alphaPos [[transparent, ⟨9, 9, 9, 255⟩],
        [transparent, transparent]] t x = true) ∧
      (∃ x, alphaPos [[transparent, ⟨9, 9, 9, 255⟩],
        [transparent, transparent]] b x = true) ∧
      (∃ y, alphaPos [[transparent, ⟨9, 9, 9, 255⟩],
        [transparent, transparent]] y l = true) ∧
      (∃ y, alphaPos [[transparent, ⟨9, 9, 9, 255⟩],
        [transparent, transparent]] y r = true)) :=
  ⟨⟨by decide, by decide⟩,
    get_subject_bbox_minimal _ (by decide) 0 1 (by decide)⟩

/-- C2: for every RGBA image whose alpha channel is zero everywhere, both
border strategies return the input image unchanged (no pixel painted) and
still report success. -/
theorem empty_alpha_passthrough (img : Img) (border_color : RGB)
    (border_width : Nat)
    (hempty : ∀ row ∈ img, ∀ p ∈ row, p.a = 0) :
    add_border_to_subject img border_color border_width = (img, true) ∧
    silhouette_border img border_color border_width = (img, true) := by
  constructor
  · rw [add_border_to_subject, bbox_none_of_empty img hempty]
  · have hmask : (subjectMask img).all (fun row => row.all (fun c => !c)) = true := by
      rw [subjectMask, List.all_eq_true]
      intro row hrow
      obtain ⟨row0, hrow0, rfl⟩ := List.mem_map.mp hrow
      rw [List.all_eq_true]
      intro c hc
      obtain ⟨p, hp, rfl⟩ := List.mem_map.mp hc
      simp [hempty row0 hrow0 p hp]
    simp [silhouette_border, hmask]

/-- Witness for C2 at a concrete fully transparent 2×2 image. -/
theorem empty_alpha_passthrough_witness :
    (∀ row ∈ ([[transparent, transparent], [transparent, transparent]] : Img),
      ∀ p ∈ row, p.a = 0) ∧
    (add_border_to_subject [[transparent, transparent],
        [transparent, transparent]] ⟨255, 0, 0⟩ 2 =
      ([[transparent, transparent], [transparent, transparent]], true) ∧
     silhouette_border [[transparent, transparent],
        [transparent, transparent]] ⟨255, 0, 0⟩ 2 =
      ([[transparent, transparent], [transparent, transparent]], true)) :=
  ⟨by decide, empty_alpha_passthrough _ ⟨255, 0, 0⟩ 2 (by decide)⟩

/-- C3: for every image with a non-empty subject (so `get_subject_bbox`
returns a bbox) and every border width in `[1, 100]`, each ring drawn by
`add_border_to_subject` is clamped so that every painted outline pixel
lies in `[0, imageWidth-1] × [0, imageHeight-1]`; consequently the output
grid keeps the input's dimensions exactly. -/
theorem bbox_rings_clamped (img : Img) (border_color : RGB)
    (border_width l t r b : Nat)
    (hbbox : get_subject_bbox img = some (l, t, r, b))
    (hw1 : 1 ≤ border_width) (hw100 : border_width ≤ 100) :
    (∀ i, i < border_width → ∀ x y : Int,
      onOutline (ringRect img l t r b i).1 (ringRect img l t r b i).2.1
        (ringRect img l t r b i).2.2.1 (ringRect img l t r b i).2.2.2 x y = true →
      0 ≤ x ∧ x ≤ (imgWidth img : Int) - 1 ∧
      0 ≤ y ∧ y ≤ (imgHeight img : Int) - 1) ∧
    (add_border_to_subject img border_color border_width).1.length = img.length ∧
    (∀ y, ((add_border_to_subject img border_color border_width).1.getD y
      []).length = (img.getD y []).length) := by
  refine ⟨?_, ?_, ?_⟩
  · intro i hi x y hon
    rw [ringRect] at hon
    simp only [onOutline, Bool.and_eq_true, decide_eq_true_eq] at hon
    obtain ⟨⟨⟨⟨hx0, hx1⟩, hy0⟩, hy1⟩, -⟩ := hon
    exact ⟨le_trans (le_max_left 0 _) hx0,
      le_trans hx1 (min_le_left _ _),
      le_trans (le_max_left 0 _) hy0,
      le_trans hy1 (min_le_left _ _)⟩
  · rw [add_border_to_subject, hbbox]
    exact (foldl_draw_shape (ringRect img l t r b) border_color
      (List.range border_width) img).1
  · intro y
    rw [add_border_to_subject, hbbox]
    exact (foldl_draw_shape (ringRect img l t r b) border_color
      (List.range border_width) img).2 y

/-- Witness for C3 at a concrete 4×4 image whose subject bbox is
`(1, 1, 2, 2)`, with border width 2. -/
theorem bbox_rings_clamped_witness :
    (get_subject_bbox [[transparent, transparent, transparent, transparent],
        [transparent, ⟨9, 9, 9, 255⟩, ⟨9, 9, 9, 255⟩, transparent],
        [transparent, transparent, ⟨9, 9, 9, 255⟩, transparent],
        [transparent, transparent, transparent, transparent]] =
      some (1, 1, 2, 2) ∧ 1 ≤ 2 ∧ 2 ≤ 100) ∧
    ((∀ i, i < 2 → ∀ x y : Int,
      onOutline
        (ringRect [[transparent, transparent, transparent, transparent],
          [transparent, ⟨9, 9, 9, 255⟩, ⟨9, 9, 9, 255⟩, transparent],
          [transparent, transparent, ⟨9, 9, 9, 255⟩, transparent],
          [transparent, transparent, transparent, transparent]] 1 1 2 2 i).1
        (ringRect [[transparent, transparent, transparent, transparent],
          [transparent, ⟨9, 9, 9, 255⟩, ⟨9, 9, 9, 255⟩, transparent],
          [transparent, transparent, ⟨9, 9, 9, 255⟩, transparent],
          [transparent, transparent, transparent, transparent]] 1 1 2 2 i).2.1
        (ringRect [[transparent, transparent, transparent, transparent],
          [transparent, ⟨9, 9, 9, 255⟩, ⟨9, 9, 9, 255⟩, transparent],
          [transparent, transparent, ⟨9, 9, 9, 255⟩, transparent],
          [transparent, transparent, transparent, transparent]] 1 1 2 2 i).2.2.1
        (ringRect [[transparent, transparent, transparent, transparent],
          [transparent, ⟨9, 9, 9, 255⟩, ⟨9, 9, 9, 255⟩, transparent],
          [transparent, transparent, ⟨9, 9, 9, 255⟩, transparent],
          [transparent, transparent, transparent, transparent]] 1 1 2 2 i).2.2.2
        x y = true →
      0 ≤ x ∧ x ≤ (imgWidth [[transparent, transparent, transparent, transparent],
          [transparent, ⟨9, 9, 9, 255⟩, ⟨9, 9, 9, 255⟩, transparent],
          [transparent, transparent, ⟨9, 9, 9, 255⟩, transparent],
          [transparent, transparent, transparent, transparent]] : Int) - 1 ∧
      0 ≤ y ∧ y ≤ (imgHeight [[transparent, transparent, transparent, transparent],
          [transparent, ⟨9, 9, 9, 255⟩, ⟨9, 9, 9, 255⟩, transparent],
          [transparent, transparent, ⟨9, 9, 9, 255⟩, transparent],
          [transparent, transparent, transparent, transparent]] : Int) - 1) ∧
    (add_border_to_subject [[transparent, transparent, transparent, transparent],
        [transparent, ⟨9, 9, 9, 255⟩, ⟨9, 9, 9, 255⟩, transparent],
        [transparent, transparent, ⟨9, 9, 9, 255⟩, transparent],
        [transparent, transparent, transparent, transparent]]
      ⟨255, 0, 0⟩ 2).1.length =
      ([[transparent, transparent, transparent, transparent],
        [transparent, ⟨9, 9, 9, 255⟩, ⟨9, 9, 9, 255⟩, transparent],
        [transparent, transparent, ⟨9, 9, 9, 255⟩, transparent],
        [transparent, transparent, transparent, transparent]] : Img).length ∧
    (∀ y, ((add_border_to_subject
        [[transparent, transparent, transparent, transparent],
        [transparent, ⟨9, 9, 9, 255⟩, ⟨9, 9, 9, 255⟩, transparent],
        [transparent, transparent, ⟨9, 9, 9, 255⟩, transparent],
        [transparent, transparent, transparent, transparent]]
      ⟨255, 0, 0⟩ 2).1.getD y []).length =
      (([[transparent, transparent, transparent, transparent],
        [transparent, ⟨9, 9, 9, 255⟩, ⟨9, 9, 9, 255⟩, transparent],
        [transparent, transparent, ⟨9, 9, 9, 255⟩, transparent],
        [transparent, transparent, transparent, transparent]] : Img).getD y
          []).length)) :=
  ⟨⟨by decide, by decide, by decide⟩,
    bbox_rings_clamped _ ⟨255, 0, 0⟩ 2 1 1 2 2 (by decide) (by decide) (by decide)⟩

/-- C4 (spec-modelled: the silhouette script is absent from `src/`): for
every image with a non-empty subject and width in `[1, 100]`, the
silhouette strategy succeeds, keeps the grid dimensions, paints exactly
the cells of `dilate^width(mask) AND NOT mask` with the border color at
full opacity, leaves every other pixel unchanged, and in particular never
changes a pixel of the original subject. -/
theorem silhouette_border_spec (img : Img) (border_color : RGB)
    (border_width : Nat)
    (hw1 : 1 ≤ border_width) (hw100 : border_width ≤ 100)
    (hne : (subjectMask img).all (fun row => row.all (fun c => !c)) = false) :
    (silhouette_border img border_color border_width).2 = true ∧
    (silhouette_border img border_color border_width).1.length = img.length ∧
    (∀ y x, y < img.length → x < (img.getD y []).length →
      (((silhouette_border img border_color border_width).1.getD y []).getD x
          transparent =
        if (maskCell (dilate (subjectMask img) border_width) (y : Int) (x : Int) &&
            !maskCell (subjectMask img) (y : Int) (x : Int)) = true
        then ⟨border_color.r, border_color.g, border_color.b, 255⟩
        else (img.getD y []).getD x transparent) ∧
      (maskCell (subjectMask img) (y : Int) (x : Int) = true →
        ((silhouette_border img border_color border_width).1.getD y []).getD x
          transparent = (img.getD y []).getD x transparent)) := by
  have hout : (silhouette_border img border_color border_width).1 =
      img.mapIdx fun y row => row.mapIdx fun x p =>
        if (maskCell (dilate (subjectMask img) border_width) (y : Int) (x : Int) &&
            !maskCell (subjectMask img) (y : Int) (x : Int))
        then ⟨border_color.r, border_color.g, border_color.b, 255⟩ else p := by
    rw [silhouette_border]
    simp [hne]
  have hflag : (silhouette_border img border_color border_width).2 = true := by
    rw [silhouette_border]
    simp [hne]
  refine ⟨hflag, ?_, ?_⟩
  · rw [hout, List.length_mapIdx]
  · intro y x hy hx
    have hpoint : ((silhouette_border img border_color border_width).1.getD y
        []).getD x transparent =
        if (maskCell (dilate (subjectMask img) border_width) (y : Int) (x : Int) &&
            !maskCell (subjectMask img) (y : Int) (x : Int)) = true
        then ⟨border_color.r, border_color.g, border_color.b, 255⟩
        else (img.getD y []).getD x transparent := by
      rw [hout, getD_mapIdx img _ y [] [] hy, getD_mapIdx _ _ x transparent
        transparent hx]
    refine ⟨hpoint, fun hmem => ?_⟩
    rw [hpoint, if_neg]
    simp [hmem]

/-- Witness for C4 at a concrete 2×2 image with one opaque pixel and
border width 1. -/
theorem silhouette_border_spec_witness :
    (1 ≤ 1 ∧ 1 ≤ 100 ∧
     (subjectMask [[transparent, ⟨9, 9, 9, 255⟩], [transparent, transparent]]).all
       (fun row => row.all (fun c => !c)) = false) ∧
    ((silhouette_border [[transparent, ⟨9, 9, 9, 255⟩],
        [transparent, transparent]] ⟨0, 255, 0⟩ 1).2 = true ∧
     (silhouette_border [[transparent, ⟨9, 9, 9, 255⟩],
        [transparent, transparent]] ⟨0, 255, 0⟩ 1).1.length =
       ([[transparent, ⟨9, 9, 9, 255⟩], [transparent, transparent]] : Img).length ∧
     (∀ y x, y < ([[transparent, ⟨9, 9, 9, 255⟩],
          [transparent, transparent]] : Img).length →
       x < (([[transparent, ⟨9, 9, 9, 255⟩],
          [transparent, transparent]] : Img).getD y []).length →
       (((silhouette_border [[transparent, ⟨9, 9, 9, 255⟩],
            [transparent, transparent]] ⟨0, 255, 0⟩ 1).1.getD y []).getD x
            transparent =
         if (maskCell (dilate (subjectMask [[transparent, ⟨9, 9, 9, 255⟩],
              [transparent, transparent]]) 1) (y : Int) (x : Int) &&
             !maskCell (subjectMask [[transparent, ⟨9, 9, 9, 255⟩],
              [transparent, transparent]]) (y : Int) (x : Int)) = true
         then ⟨0, 255, 0, 255⟩
         else (([[transparent, ⟨9, 9, 9, 255⟩],
           [transparent, transparent]] : Img).getD y []).getD x transparent) ∧
       (maskCell (subjectMask [[transparent, ⟨9, 9, 9, 255⟩],
            [transparent, transparent]]) (y : Int) (x : Int) = true →
         ((silhouette_border [[transparent, ⟨9, 9, 9, 255⟩],
            [transparent, transparent]] ⟨0, 255, 0⟩ 1).1.getD y []).getD x
            transparent =
           (([[transparent, ⟨9, 9, 9, 255⟩],
             [transparent, transparent]] : Img).getD y []).getD x transparent))) :=
  ⟨⟨by decide, by decide, by decide⟩,
    silhouette_border_spec _ ⟨0, 255, 0⟩ 1 (by decide) (by decide) (by decide)⟩


/-! ### Claim theorems: batch pipeline -/

/-- C5: `process_single` makes at most `retry_attempts` attempts; if the
first `j` attempts raise and attempt `j` succeeds it returns the Success
triple having slept exactly `2^0, ..., 2^(j-1)` seconds between attempts
(so `2^i` between attempt `i` and `i+1`, and no sleep after the final
attempt); if all attempts raise it returns Failure carrying the last
error's description after `retry_attempts` attempts. -/
theorem process_single_spec (retry_attempts j : Nat) (src outp : String)
    (gen : Nat → Except String Unit) (e : String)
    (hj : j < retry_attempts)
    (herr : ∀ i, i < j → exceptOk (gen i) = false) :
    (gen j = .ok () →
      process_single retry_attempts src outp gen =
        ((true, src, outp), (List.range j).map (fun i => 2 ^ i), j + 1)) ∧
    (j = retry_attempts - 1 → gen j = .error e →
      process_single retry_attempts src outp gen =
        ((false, src, e), (List.range j).map (fun i => 2 ^ i), retry_attempts)) ∧
    (process_single retry_attempts src outp gen).2.2 ≤ retry_attempts := by
  refine ⟨?_, ?_, runAttempts_le src outp gen retry_attempts 0⟩
  · intro hok
    rw [process_single, runAttempts_ok src outp gen j retry_attempts 0 hj
      (by simpa using herr) (by simpa using hok)]
    rw [List.range_eq_range']
  · intro hlast herr'
    rw [process_single, runAttempts_err src outp gen retry_attempts 0 (by omega)
      (fun i hi => by
        have : i < j ∨ i = j := by omega
        rcases this with h | h
        · simpa using herr i h
        · subst h; simp [herr', exceptOk])
      e (by simpa [← hlast] using herr')]
    rw [← hlast, List.range_eq_range']

/-- Witness for C5: a generator failing attempts 0 and 1 and succeeding on
attempt 2, with `retry_attempts = 3`. -/
theorem process_single_spec_witness :
    (2 < 3 ∧ (∀ i, i < 2 →
      exceptOk ((fun i => if i < 2 then Except.error "boom" else Except.ok ()) i) =
        false)) ∧
    (((fun i => if i < 2 then Except.error "boom" else Except.ok ()) 2 = .ok () →
      process_single 3 "src.png" "out.png"
          (fun i => if i < 2 then Except.error "boom" else Except.ok ()) =
        ((true, "src.png", "out.png"), (List.range 2).map (fun i => 2 ^ i), 2 + 1)) ∧
    (2 = 3 - 1 →
      (fun i => if i < 2 then Except.error "boom" else Except.ok ()) 2 =
        .error "zz" →
      process_single 3 "src.png" "out.png"
          (fun i => if i < 2 then Except.error "boom" else Except.ok ()) =
        ((false, "src.png", "zz"), (List.range 2).map (fun i => 2 ^ i), 3)) ∧
    (process_single 3 "src.png" "out.png"
        (fun i => if i < 2 then Except.error "boom" else Except.ok ())).2.2 ≤ 3) :=
  ⟨⟨by decide, by decide⟩,
    process_single_spec 3 2 "src.png" "out.png"
      (fun i => if i < 2 then Except.error "boom" else Except.ok ()) "zz"
      (by decide) (by decide)⟩

/-- C6: when the completion-ordered outcomes are a permutation of the
per-source `process_single` results, `process_batch` reports exactly one
failure entry per source whose generator fails on every attempt, one
success entry per remaining source, each source contributing exactly one
result (the reported sources are a permutation of the input sources), and
a nonnegative `total_time` (the wall clock being monotone). -/
theorem process_batch_counts (startTime endTime : ℚ) (retry_attempts : Nat)
    (sources : List String) (outp : String → String)
    (gen : String → Nat → Except String Unit)
    (outcomes : List (Bool × String × String))
    (ht : startTime ≤ endTime)
    (hperm : outcomes.Perm (sources.map (fun s =>
      (process_single retry_attempts s (outp s) (gen s)).1))) :
    (process_batch startTime endTime outcomes).1.failed.length =
      (sources.filter (fun s =>
        (List.range retry_attempts).all (fun i => !exceptOk (gen s i)))).length ∧
    (process_batch startTime endTime outcomes).1.successful.length =
      sources.length - (process_batch startTime endTime outcomes).1.failed.length ∧
    ((process_batch startTime endTime outcomes).1.successful.map (·.1) ++
      (process_batch startTime endTime outcomes).1.failed.map (·.1)).Perm sources ∧
    0 ≤ (process_batch startTime endTime outcomes).1.total_time := by
  rcases hfold : outcomes.foldl (batchStep outcomes.length) ([], [], 0, [])
    with ⟨s, f, c, k⟩
  have hsucc := foldl_batchStep_succ outcomes.length outcomes [] [] 0 []
  have hfail := foldl_batchStep_fail outcomes.length outcomes [] [] 0 []
  rw [hfold] at hsucc hfail
  simp only [List.nil_append] at hsucc hfail
  have hrep : (process_batch startTime endTime outcomes).1 =
      ⟨s, f, endTime - startTime⟩ := by
    simp [process_batch, hfold]
  have hres : ∀ src : String,
      (process_single retry_attempts src (outp src) (gen src)).1.1 =
        (List.range retry_attempts).any (fun i => exceptOk (gen src i)) := by
    intro src
    rw [process_single, runAttempts_success, List.range_eq_range']
  have hsrc : ∀ src : String,
      (process_single retry_attempts src (outp src) (gen src)).1.2.1 = src :=
    fun src => runAttempts_source src (outp src) (gen src) retry_attempts 0
  have hlen : outcomes.length = sources.length := by
    rw [hperm.length_eq, List.length_map]
  have hfailcount :
      f.length = (sources.filter (fun src =>
        (List.range retry_attempts).all (fun i => !exceptOk (gen src i)))).length := by
    rw [hfail, List.length_map, ← List.countP_eq_length_filter,
      ← List.countP_eq_length_filter, hperm.countP_eq, List.countP_map]
    refine List.countP_congr (fun src _ => ?_)
    simp only [Function.comp]
    rw [hres src, all_not_eq_not_any]
  refine ⟨?_, ?_, ?_, ?_⟩
  · rw [hrep]
    exact hfailcount
  · rw [hrep]
    have hsum : s.length + f.length = outcomes.length := by
      rw [hsucc, hfail, List.length_map, List.length_map,
        ← List.countP_eq_length_filter, ← List.countP_eq_length_filter]
      have hpart := List.length_eq_countP_add_countP (·.1) outcomes
      simp only [decide_not, Bool.decide_coe] at hpart
      omega
    simp only [hrep] at *
    omega
  · rw [hrep]
    simp only
    rw [hsucc, hfail, List.map_map, List.map_map]
    have h1 : (outcomes.filter (·.1)).map ((·.1) ∘ fun o => (o.2.1, o.2.2)) ++
        (outcomes.filter (fun o => !o.1)).map ((·.1) ∘ fun o => (o.2.1, o.2.2)) =
        ((outcomes.filter (·.1)) ++ (outcomes.filter (fun o => !o.1))).map
          (fun o => o.2.1) := by
      rw [List.map_append]
      rfl
    rw [h1]
    have h2 : ((outcomes.filter (·.1)) ++ (outcomes.filter (fun o => !o.1))).Perm
        outcomes := List.filter_append_perm _ outcomes
    refine ((h2.map _).trans ?_)
    refine (hperm.map _).trans ?_
    rw [List.map_map]
    have h3 : sources.map ((fun o => o.2.1) ∘ fun src =>
        (process_single retry_attempts src (outp src) (gen src)).1) = sources := by
      conv_rhs => rw [← List.map_id sources]
      refine List.map_congr_left (fun src _ => ?_)
      simp [Function.comp, hsrc src]
    rw [h3]
  · rw [hrep]
    simp [sub_nonneg, ht]

/-- Witness for C6: two sources of which one always fails, with the
completion order equal to the submission order. -/
theorem process_batch_counts_witness :
    ((0 : ℚ) ≤ 0 ∧
     (["a.png", "b.png"].map (fun s => (process_single 3 s (s ++ "_output.png")
        ((fun s2 _ => if s2 = "b.png" then Except.error "E" else Except.ok ())
          s)).1)).Perm
       (["a.png", "b.png"].map (fun s => (process_single 3 s (s ++ "_output.png")
        ((fun s2 _ => if s2 = "b.png" then Except.error "E" else Except.ok ())
          s)).1))) ∧
    ((process_batch 0 0 (["a.png", "b.png"].map (fun s =>
        (process_single 3 s (s ++ "_output.png")
          ((fun s2 _ => if s2 = "b.png" then Except.error "E" else Except.ok ())
            s)).1))).1.failed.length =
      (["a.png", "b.png"].filter (fun s => (List.range 3).all (fun i =>
        !exceptOk ((fun s2 _ => if s2 = "b.png" then Except.error "E"
          else Except.ok ()) s i)))).length ∧
    (process_batch 0 0 (["a.png", "b.png"].map (fun s =>
        (process_single 3 s (s ++ "_output.png")
          ((fun s2 _ => if s2 = "b.png" then Except.error "E" else Except.ok ())
            s)).1))).1.successful.length =
      (["a.png", "b.png"] : List String).length -
        (process_batch 0 0 (["a.png", "b.png"].map (fun s =>
          (process_single 3 s (s ++ "_output.png")
            ((fun s2 _ => if s2 = "b.png" then Except.error "E" else Except.ok ())
              s)).1))).1.failed.length ∧
    ((process_batch 0 0 (["a.png", "b.png"].map (fun s =>
        (process_single 3 s (s ++ "_output.png")
          ((fun s2 _ => if s2 = "b.png" then Except.error "E" else Except.ok ())
            s)).1))).1.successful.map (·.1) ++
      (process_batch 0 0 (["a.png", "b.png"].map (fun s =>
        (process_single 3 s (s ++ "_output.png")
          ((fun s2 _ => if s2 = "b.png" then Except.error "E" else Except.ok ())
            s)).1))).1.failed.map (·.1)).Perm ["a.png", "b.png"] ∧
    0 ≤ (process_batch 0 0 (["a.png", "b.png"].map (fun s =>
        (process_single 3 s (s ++ "_output.png")
          ((fun s2 _ => if s2 = "b.png" then Except.error "E" else Except.ok ())
            s)).1))).1.total_time) :=
  ⟨⟨le_refl 0, List.Perm.refl _⟩,
    process_batch_counts 0 0 3 ["a.png", "b.png"] (fun s => s ++ "_output.png")
      (fun s2 _ => if s2 = "b.png" then Except.error "E" else Except.ok ())
      _ (le_refl 0) (List.Perm.refl _)⟩

/-- C7: for every completion-ordered list of `N` outcomes, `process_batch`
invokes the progress callback exactly `N` times, the completed-count
arguments are exactly `1, 2, ..., N` in order (strictly increasing), and
the final invocation reports `completed = N`. -/
theorem process_batch_progress (startTime endTime : ℚ)
    (outcomes : List (Bool × String × String)) :
    ((process_batch startTime endTime outcomes).2).length = outcomes.length ∧
    ((process_batch startTime endTime outcomes).2).map (·.1) =
      List.range' 1 outcomes.length ∧
    (0 < outcomes.length →
      ((process_batch startTime endTime outcomes).2).getLast?.map (·.1) =
        some outcomes.length) := by
  rcases hfold : outcomes.foldl (batchStep outcomes.length) ([], [], 0, [])
    with ⟨s, f, c, k⟩
  have hcalls := foldl_batchStep_calls outcomes.length outcomes [] [] 0 []
  rw [hfold] at hcalls
  simp only [List.map_nil, List.nil_append] at hcalls
  have hk2 : (process_batch startTime endTime outcomes).2 = k := by
    simp [process_batch, hfold]
  refine ⟨?_, ?_, ?_⟩
  · rw [hk2, ← List.length_map k (·.1), hcalls, List.length_range']
  · rw [hk2, hcalls]
  · intro hpos
    rw [hk2, ← List.getLast?_map, hcalls]
    have : outcomes.length = (outcomes.length - 1) + 1 := by omega
    rw [this, List.range'_concat, List.getLast?_concat]
    congr 1
    omega

/-- C8: `estimate_cost` is the pure function computing hours
`n * a / 3600`, cost `hours * rate` with the rate looked up by GPU name
(0.69 when unknown) and cost per image `cost / n`, with the rounding the
code applies; at `(10000, RTX 4090, 8.0)` it yields
`total_hours = 22.22`, `total_cost = 15.33`, `cost_per_image = 0.0015`. -/
theorem estimate_cost_spec (n : Nat) (g : String) (a : ℚ) (hn : 0 < n) :
    (∃ cb : CostBreakdown,
      estimate_cost n g a = .ok cb ∧
      cb.estimated_hours = roundTo ((n : ℚ) * a / 3600) 2 ∧
      cb.hourly_rate = lookupRate g ∧
      cb.total_cost = roundTo ((n : ℚ) * a / 3600 * lookupRate g) 2 ∧
      cb.cost_per_image = roundTo ((n : ℚ) * a / 3600 * lookupRate g / (n : ℚ)) 4 ∧
      (gpu_prices.lookup g = none → cb.hourly_rate = 69/100)) ∧
    estimate_cost 10000 "RTX 4090" 8 =
      .ok ⟨10000, "RTX 4090", 2222/100, 69/100, 1533/100, 15/10000, 8⟩ := by
  have hne : ((n : ℚ)) ≠ 0 := by positivity
  constructor
  · exact ⟨_, estimate_cost_pos_eval n g a hne, rfl, rfl, rfl, rfl,
      fun h => by simp [lookupRate, h]⟩
  · have h1 : lookupRate "RTX 4090" = 69/100 := by
      norm_num [lookupRate, gpu_prices, List.lookup]
    rw [estimate_cost_pos_eval 10000 "RTX 4090" 8 (by norm_num)]
    simp only [Except.ok.injEq, CostBreakdown.mk.injEq, h1]
    norm_num [roundTo, round_eq, Int.floor_eq_iff]

/-- Witness for C8 at `n = 10000`, the RTX 4090 profile and 8 seconds per
image. -/
theorem estimate_cost_spec_witness :
    0 < 10000 ∧
    ((∃ cb : CostBreakdown,
      estimate_cost 10000 "RTX 4090" 8 = .ok cb ∧
      cb.estimated_hours = roundTo ((10000 : ℚ) * 8 / 3600) 2 ∧
      cb.hourly_rate = lookupRate "RTX 4090" ∧
      cb.total_cost = roundTo ((10000 : ℚ) * 8 / 3600 * lookupRate "RTX 4090") 2 ∧
      cb.cost_per_image =
        roundTo ((10000 : ℚ) * 8 / 3600 * lookupRate "RTX 4090" / (10000 : ℚ)) 4 ∧
      (gpu_prices.lookup "RTX 4090" = none → cb.hourly_rate = 69/100)) ∧
    estimate_cost 10000 "RTX 4090" 8 =
      .ok ⟨10000, "RTX 4090", 2222/100, 69/100, 1533/100, 15/10000, 8⟩) :=
  ⟨by decide, estimate_cost_spec 10000 "RTX 4090" 8 (by decide)⟩

/-- C9: under the discrete-time model of the polling loop (one poll per
second), `wait_for_completion` returns the history entry at the first
poll where the prompt id appears, and raises `TimeoutError` if and only
if the id appears at none of the `timeout` polls before the timeout
elapses. -/
theorem wait_for_completion_spec {H : Type} (hist : Nat → Option H)
    (timeout j : Nat) (h : H) (hj : j < timeout)
    (hbefore : ∀ i, i < j → hist i = none) :
    (hist j = some h → wait_for_completion hist timeout = .ok h) ∧
    (wait_for_completion hist timeout =
        .error ("TimeoutError: Workflow did not complete within " ++
          toString timeout ++ " seconds") ↔
      ∀ i, i < timeout → hist i = none) := by
  constructor
  · intro hfound
    exact waitLoop_found hist timeout timeout 0 j hj (by simpa using hbefore) h
      (by simpa using hfound)
  · rw [wait_for_completion, waitLoop_error_iff hist timeout timeout 0]
    constructor
    · intro hall i hi
      simpa using hall i hi
    · intro hall i hi
      simpa using hall i hi

/-- Witness for C9: a job whose id first appears at poll 2 with a timeout
of 5 seconds. -/
theorem wait_for_completion_spec_witness :
    (2 < 5 ∧ (∀ i, i < 2 →
      (fun k => if k = 2 then some 42 else none) i = (none : Option Nat))) ∧
    (((fun k => if k = 2 then some 42 else none) 2 = some 42 →
      wait_for_completion (fun k => if k = 2 then some 42 else none) 5 = .ok 42) ∧
    (wait_for_completion (fun k => if k = 2 then some 42 else none) 5 =
        .error ("TimeoutError: Workflow did not complete within " ++
          toString 5 ++ " seconds") ↔
      ∀ i, i < 5 → (fun k => if k = 2 then some 42 else none) i = none)) :=
  ⟨⟨by decide, by decide⟩,
    wait_for_completion_spec (fun k => if k = 2 then some 42 else none) 5 2 42
      (by decide) (by decide)⟩

/-- C10: `estimate_cost` at `num_images = 0` hits the unguarded
`cost_per_image = total_cost / num_images` division and raises
`ZeroDivisionError` instead of returning a `CostBreakdown`, for every GPU
name and per-image time. -/
theorem estimate_cost_zero (g : String) (a : ℚ) :
    estimate_cost 0 g a = .error "ZeroDivisionError: float division by zero" := by
  simp [estimate_cost, pydiv, Bind.bind, Except.bind]

end DiffusionId
